import Mathlib

/-!
Verification of the pdf-ocr pipeline (src/api.py, src/main.py).

Strings are modelled as `List Char`.  The external collaborators (the
pdf2image rasterizer, the pytesseract OCR engine, the remote chat-completion
endpoint and the json parser) are oracle fields of an environment structure;
everything the repository itself computes (regex-based whitespace cleanup,
page-marker assembly, the table-line heuristic, the fenced-block extraction,
the CSV serialization and the two HTTP handlers) is translated directly from
the Python source.
-/

namespace PdfOcr

/-! ## Character classes

`isWS` models the Python whitespace class used by `\s`, `str.strip`,
`str.split` (restricted to the ASCII whitespace characters; none of the
properties below depends on the exotic Unicode members of the class). -/

def isWS (c : Char) : Bool :=
  c = ' ' || c = '\t' || c = '\n' || c = '\r' || c = '\x0b' || c = '\x0c'

/-! ## Python string primitives -/

/-- Remove trailing whitespace (the right half of Python `str.strip()`). -/
def dropWSEnd (l : List Char) : List Char :=
  (l.reverse.dropWhile isWS).reverse

/-- Python `str.strip()`: remove leading and trailing whitespace. -/
def pyStrip (l : List Char) : List Char :=
  dropWSEnd (l.dropWhile isWS)

/-- Worker for Python `str.split()` with no separator: `cur` is the
reversed chunk of non-whitespace characters currently being read. -/
def pysplitGo : Option (List Char) → List Char → List (List Char)
  | none, [] => []
  | some cur, [] => [cur.reverse]
  | none, c :: r => if isWS c then pysplitGo none r else pysplitGo (some [c]) r
  | some cur, c :: r =>
      if isWS c then cur.reverse :: pysplitGo none r
      else pysplitGo (some (c :: cur)) r

/-- Python `str.split()` (no argument): split on whitespace runs,
discarding empty fields. -/
def pysplit (l : List Char) : List (List Char) :=
  pysplitGo none l

/-- Python `str.split("\n")`: split on each newline, keeping empty fields. -/
def splitNl : List Char → List (List Char)
  | [] => [[]]
  | c :: r =>
      if c = '\n' then [] :: splitNl r
      else
        match splitNl r with
        | [] => [[c]]
        | h :: t => (c :: h) :: t

/-- Does `pat` occur at the head of `l`? -/
def startsWithL : List Char → List Char → Bool
  | [], _ => true
  | _ :: _, [] => false
  | p :: ps, c :: cs => p = c && startsWithL ps cs

/-- Index of the first occurrence of `pat` inside `l` (Python `str.find`). -/
def findSubGo (pat : List Char) : List Char → Option Nat
  | [] => if pat.isEmpty then some 0 else none
  | c :: rest =>
      if startsWithL pat (c :: rest) then some 0
      else (findSubGo pat rest).map (· + 1)

/-- Python `str.endswith`: a case-sensitive suffix test. -/
def pyEndsWith (suff l : List Char) : Bool :=
  List.isSuffixOf suff l

/-! ## The two `re.sub` calls of the Text Normalizer

Step (b) of the cleanup is `re.sub(r"\s+", " ", s)`: every maximal run of
whitespace becomes a single space.  `subBGo` walks the string once; the flag
records whether the scanner is inside a whitespace run whose space has
already been emitted. -/

def subBGo : Bool → List Char → List Char
  | _, [] => []
  | inWS, c :: rest =>
      if isWS c then
        if inWS then subBGo true rest else ' ' :: subBGo true rest
      else c :: subBGo false rest

def subB (l : List Char) : List Char := subBGo false l

/-- Step (a) is `re.sub(r"\n\s*\n", "\n\n", s)`.  When the scanner sits just
after a newline, the greedy `\s*` followed by the final `\n` of the pattern
consumes up to the last newline inside the maximal whitespace run that
follows.  `greedyNl l` returns the index in `l` of that last newline (the
index of the last `'\n'` inside the maximal whitespace run at the head of
`l`), or `none` when the run contains no newline, in which case the pattern
does not match here. -/
def greedyNl : List Char → Option Nat
  | [] => none
  | c :: rest =>
      if c = '\n' then
        match greedyNl rest with
        | some k => some (k + 1)
        | none => some 0
      else if isWS c then
        match greedyNl rest with
        | some k => some (k + 1)
        | none => none
      else none

/-- Fuelled worker for step (a): `re.sub` scans left to right; at each
`'\n'` it attempts the match, and on success emits the replacement
`"\n\n"` and resumes right after the matched span.  One unit of fuel is
spent per step, and every step consumes at least one character, so fuel
`l.length` is always enough. -/
def subAFuel : Nat → List Char → List Char
  | 0, l => l
  | _ + 1, [] => []
  | f + 1, c :: rest =>
      if c = '\n' then
        match greedyNl rest with
        | some k => '\n' :: '\n' :: subAFuel f (rest.drop (k + 1))
        | none => c :: subAFuel f rest
      else c :: subAFuel f rest

def subA (l : List Char) : List Char := subAFuel l.length l

/-- The per-page cleanup of `ocr_pdf_from_bytes` (src/api.py lines 68-70)
and `ocr_pdf` (src/main.py lines 25-29): step (a), step (b), then
`str.strip()`. -/
def normalizeText (t : List Char) : List Char :=
  pyStrip (subB (subA t))

/-! ## Decimal rendering and page markers -/

def digitOf : Nat → Char
  | 0 => '0' | 1 => '1' | 2 => '2' | 3 => '3' | 4 => '4'
  | 5 => '5' | 6 => '6' | 7 => '7' | 8 => '8' | _ => '9'

/-- Fuelled decimal digits accumulator (`n / 10` shrinks, so fuel `n` is
always enough for a positive `n`). -/
def natReprAux : Nat → Nat → List Char → List Char
  | 0, _, acc => acc
  | f + 1, n, acc =>
      if n = 0 then acc else natReprAux f (n / 10) (digitOf (n % 10) :: acc)

/-- Decimal rendering of a natural number (Python `str(n)` inside the
f-string). -/
def natRepr (n : Nat) : List Char :=
  if n = 0 then ['0'] else natReprAux n n []

/-- Python `str(z)` for an integer. -/
def intRepr (z : Int) : List Char :=
  if z < 0 then '-' :: natRepr z.natAbs else natRepr z.toNat

/-- The page-marker text `--- Page {n} ---` (without the surrounding
newlines of the f-string). -/
def markerOf (n : Nat) : List Char :=
  "--- Page ".data ++ natRepr n ++ " ---".data

/-- One page block of the accumulated text:
`f"\n--- Page {page_num} ---\n{page_text}\n"`. -/
def pageBlock (n : Nat) (cleaned : List Char) : List Char :=
  ['\n'] ++ markerOf n ++ ['\n'] ++ cleaned ++ ['\n']

/-! ## Recognizers used to state the page-marker claims -/

/-- Strip a literal from the head of a list, if present. -/
def dropPre : List Char → List Char → Option (List Char)
  | [], l => some l
  | _ :: _, [] => none
  | p :: ps, c :: cs => if p = c then dropPre ps cs else none

/-- Strip a literal from the end of a list, if present. -/
def stripSuffixL (suff l : List Char) : Option (List Char) :=
  (dropPre suff.reverse l.reverse).map List.reverse

/-- Is `l` of the form `--- Page k ---` for some decimal `k`? -/
def markerShaped (l : List Char) : Bool :=
  match dropPre "--- Page ".data l with
  | none => false
  | some r =>
      match stripSuffixL " ---".data r with
      | none => false
      | some mid => !mid.isEmpty && mid.all (fun c => c.isDigit)

/-- All suffixes of a list (the candidate start positions of `re.search`). -/
def allSuf : List Char → List (List Char)
  | [] => [[]]
  | c :: r => (c :: r) :: allSuf r

/-- Number of positions of `l` at which `pat` occurs as a substring. -/
def countOcc (pat l : List Char) : Nat :=
  (allSuf l).countP (fun t => startsWithL pat t)

/-! ## The Table-Line Heuristic (src/main.py lines 36-40) -/

/-- Does the pattern `\d+[,\d]*` match at the head of the text?  `\d+`
requires a first digit and the rest of the pattern is optional, so the
match at a given position succeeds exactly when that position holds a
digit. -/
def matchDigitsAt : List Char → Bool
  | [] => false
  | c :: _ => c.isDigit

/-- `re.search(r"\d+[,\d]*", line)` succeeds: some start position of the
line matches the digit pattern (ASCII digits; the claims do not involve
Unicode digits). -/
def digit_search (l : List Char) : Bool :=
  (allSuf l).any matchDigitsAt

/-- The list-comprehension filter of src/main.py lines 36-40: a line is
kept when the digit regex matches and the line has more than five
whitespace-separated tokens. -/
def is_table_line (line : List Char) : Bool :=
  digit_search line && decide (5 < (pysplit line).length)

/-! ## JSON values and the fenced-block extraction of `parse_text_with_ai` -/

/-- Values produced by `json.loads` (floats are not needed by any claim). -/
inductive JVal where
  | jnull : JVal
  | jbool : Bool → JVal
  | jnum : Int → JVal
  | jstr : List Char → JVal
  | jarr : List JVal → JVal
  | jobj : List (List Char × JVal) → JVal

/-- `isinstance(data, list)`. -/
def isArr : JVal → Bool
  | .jarr _ => true
  | _ => false

/-- `re.search(r"```json\s*(.*?)\s*```", content, re.DOTALL)` in
src/api.py line 108, returning the captured group when the pattern
matches.  The leftmost match always starts at the first occurrence of
the literal
opening fence (a later occurrence of the opening fence would itself
supply a closing fence for the first one), the lazy `(.*?)` stops at the
first closing fence after it, and the two greedy `\s*` absorb exactly the
whitespace at both ends of the enclosed text, so the captured group is
the stripped text strictly between the first opening fence and the next
closing fence. -/
def json_match (content : List Char) : Option (List Char) :=
  match findSubGo "```json".data content with
  | none => none
  | some p =>
      let after := content.drop (p + 7)
      match findSubGo "```".data after with
      | none => none
      | some q => some (pyStrip (after.take q))

/-! ## HTTP-side data model -/

/-- An `HTTPException(status_code=..., detail=...)`. -/
structure HErr where
  status : Nat
  detail : List Char
deriving DecidableEq

/-- A `StreamingResponse`: its body, media type and Content-Disposition
header. -/
structure Resp where
  body : List Char
  media_type : List Char
  content_disposition : List Char
deriving DecidableEq

/-- The external collaborators of src/api.py, as oracles:
`convert_from_bytes` (pdf2image; pages are opaque image ids), the OCR
engine `image_to_string` (pytesseract), `post_inference` (the whole
`requests.post` / `raise_for_status` / `response.json()` /
`["choices"][0]["message"]["content"]` block, returning the completion
text or a `requests.RequestException` message) and `jsonLoads`
(`json.loads`, returning a value or a `JSONDecodeError` message).
Errors are the `str(e)` text of the raised exception. -/
structure Env where
  convert_from_bytes : List Nat → Except (List Char) (List Nat)
  image_to_string : Nat → Except (List Char) (List Char)
  post_inference : List Char → Except (List Char) (List Char)
  jsonLoads : List Char → Except (List Char) JVal

/-- Which external collaborators an endpoint touched, in order. -/
inductive ApiCall where
  | raster : ApiCall
  | ocr : Nat → ApiCall
  | ai : ApiCall
  | csvgen : ApiCall
deriving DecidableEq

/-! ## `ocr_pdf_from_bytes` (src/api.py lines 52-77) -/

/-- The `for page_num, image in enumerate(images, start=1)` loop body:
OCR the page, clean its text, append the page block.  The second
component records the OCR calls made before returning or raising. -/
def ocrLoop (env : Env) : List Nat → Nat → Except (List Char) (List Char) × List ApiCall
  | [], _ => (.ok [], [])
  | img :: rest, n =>
      match env.image_to_string img with
      | .error e => (.error e, [ApiCall.ocr n])
      | .ok s =>
          let cleaned := normalizeText s
          match ocrLoop env rest (n + 1) with
          | (.error e, calls) => (.error e, ApiCall.ocr n :: calls)
          | (.ok tail, calls) => (.ok (pageBlock n cleaned ++ tail), ApiCall.ocr n :: calls)

/-- `ocr_pdf_from_bytes`: rasterize, OCR page by page, and wrap any
exception of the try block into a 500 `HTTPException` whose detail
carries the original message. -/
def ocr_pdf_from_bytes (env : Env) (pdf : List Nat) :
    Except HErr (List Char) × List ApiCall :=
  match env.convert_from_bytes pdf with
  | .error e =>
      (.error ⟨500, "OCR extraction failed: ".data ++ e⟩, [ApiCall.raster])
  | .ok images =>
      match ocrLoop env images 1 with
      | (.error e, calls) =>
          (.error ⟨500, "OCR extraction failed: ".data ++ e⟩, ApiCall.raster :: calls)
      | (.ok t, calls) => (.ok t, ApiCall.raster :: calls)

/-! ## `parse_text_with_ai` (src/api.py lines 80-127) -/

/-- The response handling of the try block once the completion text is in
hand: pick the fenced interior when the fence regex matches, otherwise
the full text; `json.loads` it (a `JSONDecodeError` is caught and
re-raised as a 500); require a list, else the raised `ValueError` is
caught by the same handler and re-raised as a 500. -/
def handle_ai_content (env : Env) (content : List Char) : Except HErr (List JVal) :=
  let json_str :=
    match json_match content with
    | some g => g
    | none => content
  match env.jsonLoads json_str with
  | .error e => .error ⟨500, "Failed to parse AI response: ".data ++ e⟩
  | .ok data =>
      match data with
      | .jarr xs => .ok xs
      | _ => .error ⟨500, "Failed to parse AI response: AI response is not a JSON array".data⟩

/-- `parse_text_with_ai`: one remote call, then the response handling; a
`requests.RequestException` becomes its own 500. -/
def parse_text_with_ai (env : Env) (text : List Char) :
    Except HErr (List JVal) × List ApiCall :=
  match env.post_inference text with
  | .error e => (.error ⟨500, "AI parsing API call failed: ".data ++ e⟩, [ApiCall.ai])
  | .ok content => (handle_ai_content env content, [ApiCall.ai])

/-- The claim-side reading of the response handling: what the result must
be as a function of the parsed value of the string that was selected for
parsing.  Compared against `handle_ai_content` by theorem C3. -/
def parsedCase (env : Env) (s : List Char) : Except HErr (List JVal) :=
  match env.jsonLoads s with
  | .error e => .error ⟨500, "Failed to parse AI response: ".data ++ e⟩
  | .ok v =>
      if isArr v then
        match v with
        | .jarr xs => .ok xs
        | _ => .ok []
      else .error ⟨500, "Failed to parse AI response: AI response is not a JSON array".data⟩

/-! ## `generate_csv_from_data` (src/api.py lines 130-140)

The serialization itself is `pd.DataFrame(data).to_csv(output, index=False)`.
The pandas behaviour is modelled for flat records of scalars: columns are
the union of the keys in first-seen order; a column whose cells are all
integers keeps integer rendering; a column of integers with at least one
missing (or `None`) cell is promoted to float64, so its present integers
render with a trailing `.0` and its missing cells render empty; any other
column renders values verbatim (object dtype) with missing cells empty.
Cells are quoted as csv.QUOTE_MINIMAL does. -/

/-- One record: an association list from key to value (a Python dict,
so keys are unique; lookup takes the first binding). -/
def Rec := List (List Char × JVal)

def cellOf (r : Rec) (k : List Char) : Option JVal :=
  match r with
  | [] => none
  | (k2, v) :: rest => if k2 = k then some v else cellOf rest k

/-- Column names in first-seen order across the records. -/
def addCols (acc : List (List Char)) (r : Rec) : List (List Char) :=
  r.foldl (fun a kv => if kv.1 ∈ a then a else a ++ [kv.1]) acc

def colsOf (data : List Rec) : List (List Char) :=
  data.foldl addCols []

/-- Every record has an integer in column `k`. -/
def colIntComplete (data : List Rec) (k : List Char) : Bool :=
  data.all (fun r =>
    match cellOf r k with
    | some (.jnum _) => true
    | _ => false)

/-- Every record has an integer, `None`, or nothing in column `k`. -/
def colNumOrMissing (data : List Rec) (k : List Char) : Bool :=
  data.all (fun r =>
    match cellOf r k with
    | some (.jnum _) => true
    | some .jnull => true
    | none => true
    | _ => false)

/-- The column is promoted to float64: all-numeric but with a hole. -/
def promoteCol (data : List Rec) (k : List Char) : Bool :=
  colNumOrMissing data k && !colIntComplete data k

/-- csv.QUOTE_MINIMAL quoting of one rendered cell. -/
def csvCell (s : List Char) : List Char :=
  if s.any (fun c => c = ',' || c = '"' || c = '\n' || c = '\r') then
    '"' :: (s.map (fun c => if c = '"' then ['"', '"'] else [c])).flatten ++ ['"']
  else s

/-- Rendering of one cell of the DataFrame. -/
def renderCell (promote : Bool) : Option JVal → List Char
  | some (.jnum z) => intRepr z ++ (if promote then ".0".data else [])
  | some (.jstr s) => csvCell s
  | some (.jbool b) => if b then "True".data else "False".data
  | some .jnull => []
  | some (.jarr _) => []
  | some (.jobj _) => []
  | none => []

def joinComma (cells : List (List Char)) : List Char :=
  (List.intersperse [','] cells).flatten

/-- `df.to_csv(output, index=False)`: a header row then one row per
record, each terminated by a newline, no index column. -/
def to_csv (data : List Rec) : List Char :=
  let cols := colsOf data
  let header := joinComma (cols.map csvCell)
  let rows := data.map (fun r =>
    joinComma (cols.map (fun k => renderCell (promoteCol data k) (cellOf r k))))
  ((header :: rows).map (fun line => line ++ ['\n'])).flatten

/-- `generate_csv_from_data`: an empty record list is a 500, otherwise
serialize. -/
def generate_csv_from_data (data : List Rec) : Except HErr (List Char) :=
  if data.isEmpty then .error ⟨500, "No data extracted for CSV".data⟩
  else .ok (to_csv data)

/-- Rows handed to `pd.DataFrame` are the objects of the parsed JSON
array (the prompt contract; the model covers object rows, which is all
the claims exercise). -/
def recOfJVal : JVal → Rec
  | .jobj kvs => kvs
  | _ => []

/-! ## The two HTTP handlers (src/api.py lines 143-212) -/

/-- `POST /extract-csv`: suffix check, OCR, emptiness check, remote
extraction, CSV serialization, streaming response.  The second component
lists the external calls attempted. -/
def extract_to_csv (env : Env) (filename : List Char) (pdf : List Nat) :
    Except HErr Resp × List ApiCall :=
  if pyEndsWith ".pdf".data filename then
    match ocr_pdf_from_bytes env pdf with
    | (.error e, calls) => (.error e, calls)
    | (.ok text, calls) =>
        if (pyStrip text).isEmpty then
          (.error ⟨500, "No text could be extracted from the PDF".data⟩, calls)
        else
          match parse_text_with_ai env text with
          | (.error e, calls2) => (.error e, calls ++ calls2)
          | (.ok data, calls2) =>
              match generate_csv_from_data (data.map recOfJVal) with
              | .error e => (.error e, calls ++ calls2 ++ [ApiCall.csvgen])
              | .ok csv =>
                  (.ok ⟨csv, "text/csv".data,
                      "attachment; filename=extracted_".data
                        ++ filename.take (filename.length - 4) ++ ".csv".data⟩,
                    calls ++ calls2 ++ [ApiCall.csvgen])
  else (.error ⟨400, "Only PDF files are supported".data⟩, [])

/-- `POST /extract`: suffix check, OCR, emptiness check, streaming
response with the raw text. -/
def extract_text (env : Env) (filename : List Char) (pdf : List Nat) :
    Except HErr Resp × List ApiCall :=
  if pyEndsWith ".pdf".data filename then
    match ocr_pdf_from_bytes env pdf with
    | (.error e, calls) => (.error e, calls)
    | (.ok text, calls) =>
        if (pyStrip text).isEmpty then
          (.error ⟨500, "No text could be extracted from the PDF".data⟩, calls)
        else
          (.ok ⟨text, "text/plain".data,
              "attachment; filename=extracted_".data ++ filename ++ ".txt".data⟩,
            calls)
  else (.error ⟨400, "Only PDF files are supported".data⟩, [])

/-! ## The script entry point `ocr_pdf` (src/main.py lines 9-65) -/

/-- The two except clauses of src/main.py: `FileNotFoundError` and the
catch-all `Exception`. -/
inductive MainExc where
  | fileNotFound : List Char → MainExc
  | other : List Char → MainExc

/-- External collaborators of src/main.py: `convert_from_path`,
`image_to_string`, and `table_preview` standing for the
`pd.read_csv(StringIO(...), sep="\s+", header=None)` parse followed by
`df.head().to_string(index=False)` (the parse can raise on inconsistent
column counts). -/
structure MainEnv where
  convert_from_path : List Char → Except MainExc (List Nat)
  image_to_string : Nat → Except MainExc (List Char)
  table_preview : List (List Char) → Except MainExc (List Char)

/-- The page loop of src/main.py lines 20-56: clean each page, append its
block, run the table-line heuristic on the page text split on newlines,
and record a table preview for pages with table lines. -/
def mainLoop (env : MainEnv) :
    List Nat → Nat → Except MainExc (List Char × List (Nat × List Char))
  | [], _ => .ok ([], [])
  | img :: rest, n => do
      let s ← env.image_to_string img
      let cleaned := normalizeText s
      let table_lines := (splitNl cleaned).filter is_table_line
      let entry? ←
        if table_lines.isEmpty then pure (none : Option (Nat × List Char))
        else (env.table_preview table_lines).map (fun p => some (n, p))
      let (tailText, tailData) ← mainLoop env rest (n + 1)
      pure (pageBlock n cleaned ++ tailText, entry?.toList ++ tailData)

/-- The body of the try block of `ocr_pdf`. -/
def ocr_pdf_inner (env : MainEnv) (path : List Char) :
    Except MainExc (List Char × List (Nat × List Char)) := do
  let images ← env.convert_from_path path
  mainLoop env images 1

/-- `ocr_pdf` of src/main.py: any exception of the pipeline is caught by
one of the two except clauses, which print a diagnostic and return the
pair of an empty string and an empty list. -/
def ocr_pdf (env : MainEnv) (path : List Char) :
    List Char × List (Nat × List Char) :=
  match ocr_pdf_inner env path with
  | .ok r => r
  | .error _ => ([], [])

/-! ## Concrete environments used to evaluate the theorems -/

/-- A rasterizer that yields zero pages. -/
def env0 : Env where
  convert_from_bytes := fun _ => .ok []
  image_to_string := fun _ => .ok []
  post_inference := fun _ => .error "connection refused".data
  jsonLoads := fun _ => .error "Expecting value".data

/-- One page of ordinary text; the remote model answers with an empty
JSON array. -/
def env1 : Env where
  convert_from_bytes := fun _ => .ok [5]
  image_to_string := fun _ => .ok "budget 123".data
  post_inference := fun _ => .ok "[]".data
  jsonLoads := fun s => if s = "[]".data then .ok (.jarr []) else .error "Expecting value".data

/-- Two pages: one with ordinary text, one whose recognized text is
empty. -/
def env7 : Env where
  convert_from_bytes := fun _ => .ok [0, 1]
  image_to_string := fun i => if i = 0 then .ok "alpha beta".data else .ok []
  post_inference := fun _ => .error "connection refused".data
  jsonLoads := fun _ => .error "Expecting value".data

/-- One page whose recognized text is itself shaped like a page marker. -/
def envMark : Env where
  convert_from_bytes := fun _ => .ok [0]
  image_to_string := fun _ => .ok "--- Page 2 ---".data
  post_inference := fun _ => .error "connection refused".data
  jsonLoads := fun _ => .error "Expecting value".data

/-- A json parser that accepts exactly the payload `[1]`. -/
def envC3 : Env where
  convert_from_bytes := fun _ => .ok []
  image_to_string := fun _ => .ok []
  post_inference := fun _ => .ok "```json\n[1]\n```".data
  jsonLoads := fun s => if s = "[1]".data then .ok (.jarr [.jnum 1]) else .error "Expecting value".data

/-- A completion text carrying a fenced JSON payload. -/
def contentC3 : List Char := "```json\n[1]\n```".data

/-- A script environment whose file lookup fails. -/
def menvErr : MainEnv where
  convert_from_path := fun _ => .error (.fileNotFound "missing".data)
  image_to_string := fun _ => .ok []
  table_preview := fun _ => .ok []

/-- The record list of the CSV test property:
`[{"a": 1, "b": 2}, {"a": 3}]`. -/
def data1 : List Rec :=
  [[("a".data, JVal.jnum 1), ("b".data, JVal.jnum 2)], [("a".data, JVal.jnum 3)]]

/-! # Lemmas -/

/-! ## Equations for the whitespace substitutions -/

theorem subBGo_true_eq (l : List Char) :
    subBGo true l = subBGo false (l.dropWhile isWS) := by
  induction l with
  | nil => rfl
  | cons c r ih =>
    by_cases h : isWS c
    · simpa [subBGo, h, List.dropWhile_cons] using ih
    · simp [subBGo, h, List.dropWhile_cons]

theorem subB_nil : subB [] = [] := rfl

theorem subB_cons_ws {c : Char} (rest : List Char) (h : isWS c = true) :
    subB (c :: rest) = ' ' :: subB (rest.dropWhile isWS) := by
  simp [subB, subBGo, h, subBGo_true_eq]

theorem subB_cons_not_ws {c : Char} (rest : List Char) (h : isWS c = false) :
    subB (c :: rest) = c :: subB rest := by
  simp [subB, subBGo, h]

theorem subAFuel_congr : ∀ (f g : Nat) (l : List Char),
    l.length ≤ f → l.length ≤ g → subAFuel f l = subAFuel g l := by
  intro f
  induction f with
  | zero =>
    intro g l hf _
    have hl : l = [] := List.length_eq_zero.mp (Nat.le_zero.mp hf)
    subst hl
    cases g <;> rfl
  | succ f ih =>
    intro g l hf hg
    cases l with
    | nil => cases g <;> rfl
    | cons c rest =>
      cases g with
      | zero => simp at hg
      | succ g' =>
        have hf' : rest.length ≤ f := by simpa using hf
        have hg' : rest.length ≤ g' := by simpa using hg
        by_cases hc : c = '\n'
        · subst hc
          cases hk : greedyNl rest with
          | some k =>
            have hdf : (rest.drop (k + 1)).length ≤ f := by
              simp only [List.length_drop]; omega
            have hdg : (rest.drop (k + 1)).length ≤ g' := by
              simp only [List.length_drop]; omega
            simp [subAFuel, hk, ih g' _ hdf hdg]
          | none => simp [subAFuel, hk, ih g' rest hf' hg']
        · simp [subAFuel, hc, ih g' rest hf' hg']

theorem subA_nil : subA [] = [] := rfl

theorem subA_cons_not_nl {c : Char} (rest : List Char) (h : ¬c = '\n') :
    subA (c :: rest) = c :: subA rest := by
  show subAFuel (rest.length + 1) (c :: rest) = _
  simp [subAFuel, h, subA]

theorem subA_nl_none (rest : List Char) (h : greedyNl rest = none) :
    subA ('\n' :: rest) = '\n' :: subA rest := by
  show subAFuel (rest.length + 1) ('\n' :: rest) = _
  simp [subAFuel, h, subA]

theorem subA_nl_some (rest : List Char) (k : Nat) (h : greedyNl rest = some k) :
    subA ('\n' :: rest) = '\n' :: '\n' :: subA (rest.drop (k + 1)) := by
  show subAFuel (rest.length + 1) ('\n' :: rest) = _
  rw [show subAFuel (rest.length + 1) ('\n' :: rest)
      = '\n' :: '\n' :: subAFuel rest.length (rest.drop (k + 1)) from by simp [subAFuel, h]]
  exact congrArg _ (congrArg _
    (subAFuel_congr _ _ _ (by simp only [List.length_drop]; omega) le_rfl))

theorem greedyNl_take_ws : ∀ (l : List Char) (k : Nat), greedyNl l = some k →
    ∀ c ∈ l.take (k + 1), isWS c = true := by
  intro l
  induction l with
  | nil => intro k h; simp [greedyNl] at h
  | cons c rest ih =>
    intro k h x hx
    by_cases hc : c = '\n'
    · subst hc
      cases hk : greedyNl rest with
      | some k' =>
        simp [greedyNl, hk] at h
        subst h
        rcases (by simpa [List.take] using hx : x = '\n' ∨ x ∈ rest.take (k' + 1)) with rfl | hx'
        · decide
        · exact ih k' hk x hx'
      | none =>
        simp [greedyNl, hk] at h
        subst h
        rcases (by simpa [List.take] using hx : x = '\n') with rfl
        decide
    · by_cases hw : isWS c
      · cases hk : greedyNl rest with
        | some k' =>
          simp [greedyNl, hc, hw, hk] at h
          subst h
          rcases (by simpa [List.take] using hx : x = c ∨ x ∈ rest.take (k' + 1)) with rfl | hx'
          · exact hw
          · exact ih k' hk x hx'
        | none => simp [greedyNl, hc, hw, hk] at h
      · simp [greedyNl, hc, hw] at h

theorem dropWhile_all_append {xs : List Char} (ys : List Char)
    (h : ∀ c ∈ xs, isWS c = true) :
    (xs ++ ys).dropWhile isWS = ys.dropWhile isWS := by
  induction xs with
  | nil => rfl
  | cons c r ih =>
    have hc := h c (by simp)
    simp only [List.cons_append, List.dropWhile_cons, hc, if_true]
    exact ih (fun x hx => h x (by simp [hx]))

theorem dropWhile_head_not : ∀ (l : List Char) {c : Char} {r : List Char},
    l.dropWhile isWS = c :: r → isWS c = false := by
  intro l
  induction l with
  | nil => intro c r h; simp at h
  | cons a as ih =>
    intro c r h
    by_cases ha : isWS a
    · rw [List.dropWhile_cons, if_pos ha] at h
      exact ih h
    · rw [List.dropWhile_cons, if_neg ha] at h
      obtain ⟨rfl, -⟩ := List.cons.inj h
      exact eq_false_of_ne_true ha

theorem dropWhile_subB_dropWhile (l : List Char) :
    (subB (l.dropWhile isWS)).dropWhile isWS = subB (l.dropWhile isWS) := by
  cases h : l.dropWhile isWS with
  | nil => rfl
  | cons c r =>
    have hc := dropWhile_head_not l h
    rw [subB_cons_not_ws r hc, List.dropWhile_cons, if_neg (by simp [hc])]

theorem dropWhile_subB (l : List Char) :
    (subB l).dropWhile isWS = subB (l.dropWhile isWS) := by
  cases l with
  | nil => rfl
  | cons c r =>
    by_cases h : isWS c
    · rw [subB_cons_ws r h, List.dropWhile_cons,
        if_pos (by decide : isWS ' ' = true), List.dropWhile_cons, if_pos h]
      exact dropWhile_subB_dropWhile r
    · have hf : isWS c = false := by simpa using h
      rw [subB_cons_not_ws r hf, List.dropWhile_cons, if_neg (by simp [hf]),
        List.dropWhile_cons, if_neg (by simp [hf]), subB_cons_not_ws r hf]

/-- The key Text Normalizer fact: step (a) changes nothing once step (b)
runs, because step (a) only rewrites whitespace spans to whitespace spans
inside maximal whitespace runs, which step (b) collapses either way. -/
theorem subB_subA (l : List Char) : subB (subA l) = subB l := by
  cases l with
  | nil => rw [subA_nil]
  | cons c rest =>
    by_cases hc : c = '\n'
    · subst hc
      cases hk : greedyNl rest with
      | none =>
        rw [subA_nl_none rest hk, subB_cons_ws _ (by decide), subB_cons_ws _ (by decide)]
        refine congrArg _ ?_
        rw [← dropWhile_subB (subA rest), subB_subA rest, dropWhile_subB rest]
      | some k =>
        rw [subA_nl_some rest k hk, subB_cons_ws _ (by decide), subB_cons_ws _ (by decide)]
        refine congrArg _ ?_
        have hrest : rest.dropWhile isWS = (rest.drop (k + 1)).dropWhile isWS := by
          conv_lhs => rw [← List.take_append_drop (k + 1) rest]
          exact dropWhile_all_append _ (greedyNl_take_ws rest k hk)
        rw [List.dropWhile_cons, if_pos (by decide : isWS '\n' = true), hrest,
          ← dropWhile_subB (subA (rest.drop (k + 1))), subB_subA (rest.drop (k + 1)),
          dropWhile_subB (rest.drop (k + 1))]
    · by_cases hw : isWS c
      · rw [subA_cons_not_nl rest hc, subB_cons_ws _ hw, subB_cons_ws _ hw]
        refine congrArg _ ?_
        rw [← dropWhile_subB (subA rest), subB_subA rest, dropWhile_subB rest]
      · have hwf : isWS c = false := by simpa using hw
        rw [subA_cons_not_nl rest hc, subB_cons_not_ws _ hwf,
          subB_cons_not_ws _ hwf, subB_subA rest]
termination_by l.length
decreasing_by
  all_goals simp only [List.length_cons, List.length_drop]
  all_goals omega

/-! ## No newline survives the cleanup -/

theorem nl_not_mem_subBGo : ∀ (b : Bool) (l : List Char), '\n' ∉ subBGo b l := by
  intro b l
  induction l generalizing b with
  | nil => simp [subBGo]
  | cons c r ih =>
    by_cases h : isWS c
    · cases b with
      | true =>
        rw [show subBGo true (c :: r) = subBGo true r from by simp [subBGo, h]]
        exact ih true
      | false =>
        rw [show subBGo false (c :: r) = ' ' :: subBGo true r from by simp [subBGo, h]]
        intro hmem
        rcases List.mem_cons.mp hmem with h2 | h2
        · exact absurd h2 (by decide)
        · exact ih true h2
    · have hc : c ≠ '\n' := fun hcc => by subst hcc; simp [isWS] at h
      rw [show subBGo b (c :: r) = c :: subBGo false r from by simp [subBGo, h]]
      intro hmem
      rcases List.mem_cons.mp hmem with h2 | h2
      · exact hc h2.symm
      · exact ih false h2

theorem mem_of_mem_dropWhile : ∀ {l : List Char} {x : Char},
    x ∈ l.dropWhile isWS → x ∈ l := by
  intro l
  induction l with
  | nil => intro x h; simp at h
  | cons c r ih =>
    intro x h
    by_cases hc : isWS c
    · rw [List.dropWhile_cons, if_pos hc] at h
      exact List.mem_cons_of_mem c (ih h)
    · rwa [List.dropWhile_cons, if_neg hc] at h

theorem mem_of_mem_pyStrip {l : List Char} {x : Char} (h : x ∈ pyStrip l) : x ∈ l := by
  unfold pyStrip dropWSEnd at h
  rw [List.mem_reverse] at h
  have h2 := mem_of_mem_dropWhile h
  rw [List.mem_reverse] at h2
  exact mem_of_mem_dropWhile h2

theorem nl_not_mem_normalize (t : List Char) : '\n' ∉ normalizeText t :=
  fun h => nl_not_mem_subBGo false (subA t) (mem_of_mem_pyStrip h)

/-! ## Facts about `splitNl` -/

theorem splitNl_of_not_mem : ∀ (l : List Char), '\n' ∉ l → splitNl l = [l] := by
  intro l
  induction l with
  | nil => intro _; rfl
  | cons c r ih =>
    intro h
    have hc : ¬c = '\n' := fun hcc => h (by simp [hcc])
    have hr : '\n' ∉ r := fun hm => h (List.mem_cons_of_mem c hm)
    simp [splitNl, hc, ih hr]

theorem splitNl_cons_step {c : Char} {l : List Char} (hc : ¬c = '\n')
    {hh : List Char} {tt : List (List Char)} (h : splitNl l = hh :: tt) :
    splitNl (c :: l) = (c :: hh) :: tt := by
  simp [splitNl, hc, h]

theorem splitNl_append (xs ys : List Char) (h : '\n' ∉ xs) :
    splitNl (xs ++ '\n' :: ys) = xs :: splitNl ys := by
  induction xs with
  | nil => simp [splitNl]
  | cons c r ih =>
    have hc : ¬c = '\n' := fun hcc => h (by simp [hcc])
    have hr : '\n' ∉ r := fun hm => h (List.mem_cons_of_mem c hm)
    rw [List.cons_append]
    exact splitNl_cons_step hc (ih hr)

/-! ## When does `pyStrip` return the empty string? -/

theorem all_ws_of_dropWhile_nil : ∀ (l : List Char), l.dropWhile isWS = [] →
    ∀ c ∈ l, isWS c = true := by
  intro l
  induction l with
  | nil => intro _ c hc; simp at hc
  | cons a as ih =>
    intro h c hc
    by_cases ha : isWS a
    · rw [List.dropWhile_cons, if_pos ha] at h
      rcases List.mem_cons.mp hc with rfl | hc'
      · exact ha
      · exact ih h c hc'
    · rw [List.dropWhile_cons, if_neg ha] at h
      simp at h

theorem mem_takeWhile_ws : ∀ (l : List Char) (c : Char),
    c ∈ l.takeWhile isWS → isWS c = true := by
  intro l
  induction l with
  | nil => intro c hc; simp at hc
  | cons a as ih =>
    intro c hc
    by_cases ha : isWS a
    · rw [List.takeWhile_cons, if_pos ha] at hc
      rcases List.mem_cons.mp hc with rfl | hc'
      · exact ha
      · exact ih c hc'
    · rw [List.takeWhile_cons, if_neg ha] at hc
      simp at hc

theorem all_ws_of_pyStrip_nil {l : List Char} (h : pyStrip l = []) :
    ∀ c ∈ l, isWS c = true := by
  intro c hc
  unfold pyStrip dropWSEnd at h
  have h1 : (l.dropWhile isWS).reverse.dropWhile isWS = [] := by
    have := congrArg List.reverse h
    simpa using this
  have h2 : ∀ x ∈ l.dropWhile isWS, isWS x = true := by
    intro x hx
    exact all_ws_of_dropWhile_nil _ h1 x (by simpa using hx)
  rcases List.mem_append.mp
      (by rw [List.takeWhile_append_dropWhile] ; exact hc :
        c ∈ l.takeWhile isWS ++ l.dropWhile isWS) with hmem | hmem
  · exact mem_takeWhile_ws l c hmem
  · exact h2 c hmem

theorem pyStrip_ne_nil_of_mem {l : List Char} {c : Char}
    (hc : c ∈ l) (hw : isWS c = false) : pyStrip l ≠ [] := by
  intro h
  have := all_ws_of_pyStrip_nil h c hc
  rw [hw] at this
  exact Bool.false_ne_true this

/-! ## Decimal digit facts and the marker recognizer -/

theorem digitOf_isDigit (m : Nat) : (digitOf m).isDigit = true := by
  unfold digitOf
  split <;> decide

theorem natReprAux_spec : ∀ (f n : Nat) (acc : List Char),
    ∃ pre, natReprAux f n acc = pre ++ acc ∧ ∀ c ∈ pre, c.isDigit = true := by
  intro f
  induction f with
  | zero => intro n acc; exact ⟨[], rfl, by simp⟩
  | succ f ih =>
    intro n acc
    by_cases h : n = 0
    · exact ⟨[], by simp [natReprAux, h], by simp⟩
    · obtain ⟨pre, heq, hd⟩ := ih (n / 10) (digitOf (n % 10) :: acc)
      refine ⟨pre ++ [digitOf (n % 10)], ?_, ?_⟩
      · simp only [natReprAux, h, if_false]
        rw [heq, List.append_assoc, List.singleton_append]
      · intro c hcm
        rcases List.mem_append.mp hcm with hcm | hcm
        · exact hd c hcm
        · rw [List.mem_singleton.mp hcm]
          exact digitOf_isDigit _

theorem natRepr_digits (n : Nat) : ∀ c ∈ natRepr n, c.isDigit = true := by
  intro c hc
  by_cases h : n = 0
  · simp [natRepr, h] at hc
    rw [hc]; decide
  · obtain ⟨f, hf⟩ : ∃ f, n = f + 1 := ⟨n - 1, by omega⟩
    subst hf
    rw [natRepr, if_neg h] at hc
    rw [show natReprAux (f + 1) (f + 1) []
        = natReprAux f ((f + 1) / 10) [digitOf ((f + 1) % 10)] from by
      simp [natReprAux]] at hc
    obtain ⟨pre, heq, hd⟩ := natReprAux_spec f ((f + 1) / 10) [digitOf ((f + 1) % 10)]
    rw [heq] at hc
    rcases List.mem_append.mp hc with hcm | hcm
    · exact hd c hcm
    · rw [List.mem_singleton.mp hcm]
      exact digitOf_isDigit _

theorem natRepr_ne_nil (n : Nat) : natRepr n ≠ [] := by
  by_cases h : n = 0
  · simp [natRepr, h]
  · obtain ⟨f, hf⟩ : ∃ f, n = f + 1 := ⟨n - 1, by omega⟩
    subst hf
    rw [natRepr, if_neg h]
    rw [show natReprAux (f + 1) (f + 1) []
        = natReprAux f ((f + 1) / 10) [digitOf ((f + 1) % 10)] from by
      simp [natReprAux]]
    obtain ⟨pre, heq, -⟩ := natReprAux_spec f ((f + 1) / 10) [digitOf ((f + 1) % 10)]
    rw [heq]
    simp

theorem dropPre_append : ∀ (p r : List Char), dropPre p (p ++ r) = some r := by
  intro p
  induction p with
  | nil => intro r; rfl
  | cons c cs ih => intro r; simp [dropPre, ih]

theorem stripSuffixL_append (s m : List Char) : stripSuffixL s (m ++ s) = some m := by
  unfold stripSuffixL
  rw [List.reverse_append, dropPre_append]
  simp

theorem markerShaped_markerOf (n : Nat) : markerShaped (markerOf n) = true := by
  have h1 : dropPre "--- Page ".data (markerOf n) = some (natRepr n ++ " ---".data) := by
    rw [markerOf, List.append_assoc]
    exact dropPre_append _ _
  have h2 : stripSuffixL " ---".data (natRepr n ++ " ---".data) = some (natRepr n) :=
    stripSuffixL_append _ _
  have h3 : (natRepr n).isEmpty = false := by
    cases h : natRepr n with
    | nil => exact absurd h (natRepr_ne_nil n)
    | cons a as => rfl
  unfold markerShaped
  simp only [h1, h2, h3]
  simpa [List.all_eq_true] using natRepr_digits n

theorem nl_not_mem_markerOf (n : Nat) : '\n' ∉ markerOf n := by
  unfold markerOf
  intro h
  rcases List.mem_append.mp h with h' | h'
  · rcases List.mem_append.mp h' with h'' | h''
    · exact absurd h'' (by decide)
    · have := natRepr_digits n '\n' h''
      exact absurd this (by decide)
  · exact absurd h' (by decide)

/-! ## The digit regex -/

theorem digit_search_iff (l : List Char) :
    digit_search l = true ↔ ∃ c ∈ l, c.isDigit = true := by
  induction l with
  | nil => simp [digit_search, allSuf, matchDigitsAt]
  | cons c r ih =>
    have hstep : digit_search (c :: r) = (c.isDigit || digit_search r) := by
      simp [digit_search, allSuf, matchDigitsAt]
    rw [hstep, Bool.or_eq_true, ih]
    constructor
    · rintro (h | ⟨x, hx, hd⟩)
      · exact ⟨c, by simp, h⟩
      · exact ⟨x, List.mem_cons_of_mem c hx, hd⟩
    · rintro ⟨x, hx, hd⟩
      rcases List.mem_cons.mp hx with rfl | hx'
      · exact Or.inl hd
      · exact Or.inr ⟨x, hx', hd⟩

/-! ## The shape of the accumulated OCR text -/

theorem markerShaped_nil : markerShaped ([] : List Char) = false := rfl

theorem ocrLoop_filter_markers (env : Env) :
    ∀ (imgs : List Nat) (n : Nat) (t : List Char) (calls : List ApiCall),
      ocrLoop env imgs n = (.ok t, calls) →
      (∀ img ∈ imgs, ∀ s, env.image_to_string img = .ok s →
        markerShaped (normalizeText s) = false) →
      (splitNl t).filter markerShaped
        = (List.range imgs.length).map (fun i => markerOf (n + i)) := by
  intro imgs
  induction imgs with
  | nil =>
    intro n t calls h _
    obtain ⟨rfl, -⟩ : [] = t ∧ [] = calls := by
      simpa [ocrLoop, Prod.ext_iff] using h
    simp [splitNl, List.filter, markerShaped_nil]
  | cons img rest ih =>
    intro n t calls h hside
    cases hocr : env.image_to_string img with
    | error e => simp [ocrLoop, hocr] at h
    | ok s =>
      rcases hrec : ocrLoop env rest (n + 1) with ⟨res, calls2⟩
      cases res with
      | error e =>
        simp [ocrLoop, hocr, hrec] at h
      | ok tail =>
        have hpair : (Except.ok (pageBlock n (normalizeText s) ++ tail)
              : Except (List Char) (List Char)) = .ok t
            ∧ ApiCall.ocr n :: calls2 = calls := by
          simpa [ocrLoop, hocr, hrec, Prod.ext_iff] using h
        obtain ⟨ht, -⟩ := hpair
        have ht2 : pageBlock n (normalizeText s) ++ tail = t := by
          simpa using ht
        subst ht2
        have hcnl : '\n' ∉ normalizeText s := nl_not_mem_normalize s
        have hmnl : '\n' ∉ markerOf n := nl_not_mem_markerOf n
        have hshape : pageBlock n (normalizeText s) ++ tail
            = '\n' :: (markerOf n ++ '\n' :: (normalizeText s ++ '\n' :: tail)) := by
          simp [pageBlock, List.append_assoc]
        rw [hshape]
        rw [show splitNl ('\n' :: (markerOf n ++ '\n' :: (normalizeText s ++ '\n' :: tail)))
            = [] :: splitNl (markerOf n ++ '\n' :: (normalizeText s ++ '\n' :: tail)) from by
          simp [splitNl]]
        rw [splitNl_append _ _ hmnl, splitNl_append _ _ hcnl]
        have hmark := markerShaped_markerOf n
        have hno := hside img (List.mem_cons_self img rest) s hocr
        have hrest := ih (n + 1) tail calls2 hrec
          (fun i hi s2 hs2 => hside i (List.mem_cons_of_mem img hi) s2 hs2)
        rw [List.filter_cons_of_neg (by simp [markerShaped_nil]),
          List.filter_cons_of_pos (by simp [hmark]),
          List.filter_cons_of_neg (by simp [hno]), hrest]
        simp only [List.length_cons]
        rw [List.range_succ_eq_map, List.map_cons, List.map_map]
        refine congrArg₂ _ (by simp) ?_
        have hfun : (fun i => markerOf (n + 1 + i))
            = ((fun i => markerOf (n + i)) ∘ fun i => i + 1) := by
          funext i
          simp only [Function.comp]
          rw [show n + 1 + i = n + (i + 1) from by omega]
        rw [hfun]

theorem ocrLoop_ok_cons (env : Env) (img : Nat) (rest : List Nat) (n : Nat)
    (t : List Char) (calls : List ApiCall)
    (h : ocrLoop env (img :: rest) n = (.ok t, calls)) :
    ∃ c tail, t = pageBlock n c ++ tail := by
  cases hocr : env.image_to_string img with
  | error e => simp [ocrLoop, hocr] at h
  | ok s =>
    rcases hrec : ocrLoop env rest (n + 1) with ⟨res, calls2⟩
    cases res with
    | error e => simp [ocrLoop, hocr, hrec] at h
    | ok tail =>
      have hpair : (Except.ok (pageBlock n (normalizeText s) ++ tail)
            : Except (List Char) (List Char)) = .ok t
          ∧ ApiCall.ocr n :: calls2 = calls := by
        simpa [ocrLoop, hocr, hrec, Prod.ext_iff] using h
      exact ⟨normalizeText s, tail, by simpa using hpair.1.symm⟩

/-- Once at least one page block is present, the text has a dash in it,
so it does not strip to the empty string. -/
theorem ocrLoop_strip_ne_nil {env : Env} {imgs : List Nat} {n : Nat}
    {t : List Char} {calls : List ApiCall} (hne : imgs ≠ [])
    (h : ocrLoop env imgs n = (.ok t, calls)) : pyStrip t ≠ [] := by
  cases imgs with
  | nil => exact absurd rfl hne
  | cons img rest =>
    obtain ⟨c, tail, rfl⟩ := ocrLoop_ok_cons env img rest n t calls h
    refine pyStrip_ne_nil_of_mem (c := '-') ?_ (by decide)
    have hm : '-' ∈ markerOf n := by
      unfold markerOf
      exact List.mem_append_left _ (List.mem_append_left _ (by decide))
    simp [pageBlock, hm]

/-! ## Discriminating the error messages -/

theorem ne_of_head_append {c d : Char} {p q e : List Char} (hcd : c ≠ d) :
    (c :: p) ++ e ≠ d :: q := by
  intro h
  rw [List.cons_append] at h
  exact hcd (List.cons.inj h).1

theorem ocr_msg_ne_noText (e : List Char) :
    "OCR extraction failed: ".data ++ e
      ≠ "No text could be extracted from the PDF".data :=
  ne_of_head_append (by decide)

theorem ai_msg_ne_noText (e : List Char) :
    "AI parsing API call failed: ".data ++ e
      ≠ "No text could be extracted from the PDF".data :=
  ne_of_head_append (by decide)

theorem failed_msg_ne_noText (e : List Char) :
    "Failed to parse AI response: ".data ++ e
      ≠ "No text could be extracted from the PDF".data :=
  ne_of_head_append (by decide)

theorem handle_ai_content_error_shape (env : Env) (content : List Char) (e : HErr)
    (h : handle_ai_content env content = .error e) :
    ∃ m, e = ⟨500, "Failed to parse AI response: ".data ++ m⟩ := by
  simp only [handle_ai_content] at h
  rcases hj : env.jsonLoads
      (match json_match content with
        | some g => g
        | none => content) with e3 | v
  · rw [hj] at h
    exact ⟨e3, by simpa using h.symm⟩
  · rw [hj] at h
    cases v with
    | jarr xs => simp at h
    | jnull => exact ⟨"AI response is not a JSON array".data, by simpa using h.symm⟩
    | jbool b => exact ⟨"AI response is not a JSON array".data, by simpa using h.symm⟩
    | jnum z => exact ⟨"AI response is not a JSON array".data, by simpa using h.symm⟩
    | jstr s => exact ⟨"AI response is not a JSON array".data, by simpa using h.symm⟩
    | jobj kvs => exact ⟨"AI response is not a JSON array".data, by simpa using h.symm⟩

theorem parse_ai_error_ne (env : Env) (t : List Char) (e : HErr) (calls : List ApiCall)
    (h : parse_text_with_ai env t = (.error e, calls)) :
    e ≠ ⟨500, "No text could be extracted from the PDF".data⟩ := by
  rcases hp : env.post_inference t with e2 | content
  · have h4 := congrArg Prod.fst h
    rw [parse_text_with_ai, hp] at h4
    have h2 : (⟨500, "AI parsing API call failed: ".data ++ e2⟩ : HErr) = e :=
      Except.error.inj h4
    intro hcontra
    rw [hcontra] at h2
    exact ai_msg_ne_noText e2 (congrArg HErr.detail h2)
  · have h4 := congrArg Prod.fst h
    rw [parse_text_with_ai, hp] at h4
    have h2 : handle_ai_content env content = .error e := h4
    obtain ⟨m, rfl⟩ := handle_ai_content_error_shape env content e h2
    intro hcontra
    exact failed_msg_ne_noText m (congrArg HErr.detail hcontra)

/-! # Claims -/

/-- Claim C1 (counterexample): on the record list `[{a: 1, b: 2}, {a: 3}]`
the Tabular Serializer produces the CSV text `a,b\n1,2.0\n3,\n`, whose
second line is `1,2.0` and not the `1,2` stated by the claim: the missing
cell makes pandas promote column b to float64, so the present integer 2 is
rendered `2.0`. -/
theorem C1_counterexample :
    generate_csv_from_data data1 = .ok "a,b\n1,2.0\n3,\n".data ∧
    "a,b\n1,2.0\n3,\n".data ≠ "a,b\n1,2\n3,\n".data :=
  ⟨rfl, by decide⟩

/-- Claim C1 (amended): on `[{a: 1, b: 2}, {a: 3}]` the Tabular Serializer
succeeds with header row `a,b` and data rows `1,2.0` then `3,` — the
missing field renders as the empty string and causes no error, but the
hole promotes column b to floating point, so 2 renders as `2.0`. -/
theorem C1_amended :
    generate_csv_from_data data1 = .ok "a,b\n1,2.0\n3,\n".data ∧
    splitNl "a,b\n1,2.0\n3,\n".data = ["a,b".data, "1,2.0".data, "3,".data, []] :=
  ⟨rfl, by decide⟩

/-- Claim C2: for every input string, running the three-step cleanup
(collapse blank-line spans, collapse whitespace runs, strip) gives exactly
the same output as running only the last two steps: step (a) is a no-op
given that step (b) follows it. -/
theorem C2_stepA_noop (s : List Char) : normalizeText s = pyStrip (subB s) := by
  unfold normalizeText
  rw [subB_subA]

/-- Claim C3: for every completion text, when the fence regex captures a
group only that group is handed to the json parser, otherwise the whole
text is; and whenever the parsed value is not an array the handler fails
with the 500 not-a-JSON-array server error instead of returning. -/
theorem C3_response_handling (env : Env) (content : List Char) :
    ((∀ g, json_match content = some g →
        handle_ai_content env content = parsedCase env g) ∧
      (json_match content = none →
        handle_ai_content env content = parsedCase env content)) ∧
    (∀ s v, env.jsonLoads s = .ok v → isArr v = false →
      parsedCase env s = .error ⟨500,
        "Failed to parse AI response: AI response is not a JSON array".data⟩) := by
  refine ⟨⟨?_, ?_⟩, ?_⟩
  · intro g hg
    simp only [handle_ai_content, hg]
    rcases hj : env.jsonLoads g with e | v
    · simp [parsedCase, hj]
    · cases v <;> simp [parsedCase, hj, isArr]
  · intro hg
    simp only [handle_ai_content, hg]
    rcases hj : env.jsonLoads content with e | v
    · simp [parsedCase, hj]
    · cases v <;> simp [parsedCase, hj, isArr]
  · intro s v hj hv
    rw [parsedCase, hj]
    cases v <;> simp [isArr] at hv ⊢

/-- Claim C3 (witness): on the concrete completion text carrying the
fenced payload `[1]`, the handler behaves as the parse of the captured
group `[1]` dictates. -/
theorem C3_witness :
    handle_ai_content envC3 contentC3 = parsedCase envC3 "[1]".data :=
  (C3_response_handling envC3 contentC3).1.1 "[1]".data rfl

/-- Claim C4: a line is flagged by the Table-Line Heuristic exactly when
the digit regex finds a digit in it and it splits into strictly more than
five whitespace tokens; a five-token line with digits is not flagged and
a six-token line with digits is. -/
theorem C4_table_line_heuristic :
    (∀ line : List Char, is_table_line line = true ↔
        ((∃ c ∈ line, c.isDigit = true) ∧ 5 < (pysplit line).length)) ∧
    is_table_line "1 b c d e".data = false ∧
    is_table_line "1 b c d e f".data = true := by
  refine ⟨?_, by decide, by decide⟩
  intro line
  rw [is_table_line, Bool.and_eq_true, digit_search_iff, decide_eq_true_eq]

/-- Claim C5: a filename that does not end in the lowercase `.pdf` is
rejected by both handlers with the 400 client error, before any external
call (the recorded call trace is empty); the check is the case-sensitive
suffix test `pyEndsWith`. -/
theorem C5_extension_check (env : Env) (filename : List Char) (pdf : List Nat)
    (h : pyEndsWith ".pdf".data filename = false) :
    extract_to_csv env filename pdf
      = (.error ⟨400, "Only PDF files are supported".data⟩, []) ∧
    extract_text env filename pdf
      = (.error ⟨400, "Only PDF files are supported".data⟩, []) := by
  constructor <;> simp [extract_to_csv, extract_text, h]

/-- Claim C5 (witness): the uppercase-suffix filename `report.PDF` is
rejected by both handlers with no external call. -/
theorem C5_witness :
    extract_to_csv env0 "report.PDF".data []
      = (.error ⟨400, "Only PDF files are supported".data⟩, []) ∧
    extract_text env0 "report.PDF".data []
      = (.error ⟨400, "Only PDF files are supported".data⟩, []) :=
  C5_extension_check env0 "report.PDF".data [] (by decide)

/-- Claim C6: when rasterization yields zero pages, `ocr_pdf_from_bytes`
returns the empty string, and both endpoints answer the 500 server error
about no extractable text. -/
theorem C6_zero_pages (env : Env) (filename : List Char) (pdf : List Nat)
    (hr : env.convert_from_bytes pdf = .ok [])
    (hname : pyEndsWith ".pdf".data filename = true) :
    ocr_pdf_from_bytes env pdf = (.ok [], [ApiCall.raster]) ∧
    extract_to_csv env filename pdf
      = (.error ⟨500, "No text could be extracted from the PDF".data⟩, [ApiCall.raster]) ∧
    extract_text env filename pdf
      = (.error ⟨500, "No text could be extracted from the PDF".data⟩, [ApiCall.raster]) := by
  have hocr : ocr_pdf_from_bytes env pdf = (.ok [], [ApiCall.raster]) := by
    rw [ocr_pdf_from_bytes, hr]
    rfl
  refine ⟨hocr, ?_, ?_⟩ <;>
    simp [extract_to_csv, extract_text, hname, hocr, pyStrip, dropWSEnd]

/-- Claim C6 (witness): a concrete environment whose rasterizer yields no
pages drives both endpoints into the no-text 500 error. -/
theorem C6_witness :
    ocr_pdf_from_bytes env0 [] = (.ok [], [ApiCall.raster]) ∧
    extract_to_csv env0 "doc.pdf".data []
      = (.error ⟨500, "No text could be extracted from the PDF".data⟩, [ApiCall.raster]) ∧
    extract_text env0 "doc.pdf".data []
      = (.error ⟨500, "No text could be extracted from the PDF".data⟩, [ApiCall.raster]) :=
  C6_zero_pages env0 "doc.pdf".data [] rfl (by decide)

/-- Claim C7 (counterexample): a one-page document whose recognized text
is itself the marker-shaped line `--- Page 2 ---` yields a normalized
text containing an occurrence of the page-marker pattern with k = 2 even
though N = 1, so the pattern does not occur exactly for k = 1..N. -/
theorem C7_counterexample :
    envMark.convert_from_bytes [] = .ok [0] ∧
    (ocr_pdf_from_bytes envMark []).1 = .ok "\n--- Page 1 ---\n--- Page 2 ---\n".data ∧
    countOcc "--- Page 2 ---".data "\n--- Page 1 ---\n--- Page 2 ---\n".data = 1 ∧
    (splitNl "\n--- Page 1 ---\n--- Page 2 ---\n".data).filter markerShaped
      ≠ [markerOf 1] :=
  ⟨rfl, rfl, by decide, by decide⟩

/-- Claim C7 (amended): when rasterization yields N pages, the OCR loop
succeeds, and no page cleans up to a text that is itself marker shaped,
the normalized output split into lines carries exactly N marker lines,
`--- Page k ---` for k = 1..N in increasing order (one per page, also for
pages whose recognized text is empty). -/
theorem C7_amended (env : Env) (pdf : List Nat) (imgs : List Nat)
    (t : List Char) (calls : List ApiCall)
    (hr : env.convert_from_bytes pdf = .ok imgs)
    (ht : ocr_pdf_from_bytes env pdf = (.ok t, calls))
    (hside : ∀ img ∈ imgs, ∀ s, env.image_to_string img = .ok s →
      markerShaped (normalizeText s) = false) :
    (splitNl t).filter markerShaped
      = (List.range imgs.length).map (fun i => markerOf (1 + i)) := by
  rcases hl : ocrLoop env imgs 1 with ⟨res, calls2⟩
  cases res with
  | error e =>
    simp only [ocr_pdf_from_bytes, hr, hl] at ht
    exact absurd (congrArg Prod.fst ht) (by simp)
  | ok t2 =>
    simp only [ocr_pdf_from_bytes, hr, hl] at ht
    have ht2 : t2 = t := Except.ok.inj (congrArg Prod.fst ht)
    subst ht2
    exact ocrLoop_filter_markers env imgs 1 t2 calls2 hl hside

/-- Claim C7 (witness): a two-page document, one ordinary page and one
empty page, carries exactly the marker lines for k = 1 and k = 2 in
order. -/
theorem C7_witness :
    (splitNl "\n--- Page 1 ---\nalpha beta\n\n--- Page 2 ---\n\n".data).filter markerShaped
      = (List.range 2).map (fun i => markerOf (1 + i)) :=
  C7_amended env7 [] [0, 1] "\n--- Page 1 ---\nalpha beta\n\n--- Page 2 ---\n\n".data
    [ApiCall.raster, ApiCall.ocr 1, ApiCall.ocr 2] rfl rfl
    (by
      intro img him s hs
      rcases (by simpa using him : img = 0 ∨ img = 1) with rfl | rfl
      · have hs2 : s = "alpha beta".data := by simpa [env7] using hs.symm
        subst hs2
        decide
      · have hs2 : s = [] := by simpa [env7] using hs.symm
        subst hs2
        decide)

/-- Claim C8: whenever the body of the try block of the script-mode
`ocr_pdf` raises (file lookup, rasterization, OCR or the table parse),
the function does not propagate the exception: it returns the pair of the
empty string and the empty list. -/
theorem C8_script_error_swallow (env : MainEnv) (path : List Char) (e : MainExc)
    (h : ocr_pdf_inner env path = .error e) :
    ocr_pdf env path = ([], []) := by
  rw [ocr_pdf, h]

/-- Claim C8 (witness): a missing input file makes the script return the
empty pair instead of raising. -/
theorem C8_witness : ocr_pdf menvErr "input.pdf".data = ([], []) :=
  C8_script_error_swallow menvErr "input.pdf".data (.fileNotFound "missing".data) rfl

/-- Claim C9: when rasterization yields at least one page, the text
assembled by `ocr_pdf_from_bytes` contains non-whitespace marker
characters, so it never strips to the empty string, and neither endpoint
can answer the no-text 500 error. -/
theorem C9_no_text_unreachable (env : Env) (filename : List Char) (pdf : List Nat)
    (imgs : List Nat)
    (hr : env.convert_from_bytes pdf = .ok imgs) (hne : imgs ≠ [])
    (hname : pyEndsWith ".pdf".data filename = true) :
    (extract_text env filename pdf).1
        ≠ .error ⟨500, "No text could be extracted from the PDF".data⟩ ∧
    (extract_to_csv env filename pdf).1
        ≠ .error ⟨500, "No text could be extracted from the PDF".data⟩ ∧
    (∀ t, (ocr_pdf_from_bytes env pdf).1 = .ok t → pyStrip t ≠ []) := by
  rcases hl : ocrLoop env imgs 1 with ⟨res, calls⟩
  cases res with
  | error e =>
    have hocr : ocr_pdf_from_bytes env pdf
        = (.error ⟨500, "OCR extraction failed: ".data ++ e⟩, ApiCall.raster :: calls) := by
      simp only [ocr_pdf_from_bytes, hr, hl]
    refine ⟨?_, ?_, ?_⟩
    · rw [extract_text, if_pos hname, hocr]
      intro hcontra
      have h2 : (⟨500, "OCR extraction failed: ".data ++ e⟩ : HErr)
          = ⟨500, "No text could be extracted from the PDF".data⟩ :=
        Except.error.inj hcontra
      exact ocr_msg_ne_noText e (congrArg HErr.detail h2)
    · rw [extract_to_csv, if_pos hname, hocr]
      intro hcontra
      have h2 : (⟨500, "OCR extraction failed: ".data ++ e⟩ : HErr)
          = ⟨500, "No text could be extracted from the PDF".data⟩ :=
        Except.error.inj hcontra
      exact ocr_msg_ne_noText e (congrArg HErr.detail h2)
    · intro t ht
      rw [hocr] at ht
      exact absurd ht (by simp)
  | ok t0 =>
    have hstrip := ocrLoop_strip_ne_nil hne hl
    have hocr : ocr_pdf_from_bytes env pdf = (.ok t0, ApiCall.raster :: calls) := by
      simp only [ocr_pdf_from_bytes, hr, hl]
    have hcond : (pyStrip t0).isEmpty = false := by
      cases hps : pyStrip t0 with
      | nil => exact absurd hps hstrip
      | cons a as => rfl
    refine ⟨?_, ?_, ?_⟩
    · simp [extract_text, hname, hocr, hcond]
    · simp only [extract_to_csv, hname, if_true, hocr]
      rcases hai : parse_text_with_ai env t0 with ⟨pres, pcalls⟩
      cases pres with
      | error e2 =>
        simp only [hcond, Bool.false_eq_true, if_false, hai]
        intro hcontra
        exact parse_ai_error_ne env t0 e2 pcalls hai (Except.error.inj hcontra)
      | ok data =>
        simp only [hcond, Bool.false_eq_true, if_false, hai]
        by_cases hd : ((data.map recOfJVal).isEmpty : Bool)
        · simp only [generate_csv_from_data, hd, if_true]
          intro hcontra
          have h2 := congrArg HErr.detail (Except.error.inj hcontra)
          exact absurd h2 (by decide)
        · simp [generate_csv_from_data, hd]
    · intro t ht
      rw [hocr] at ht
      have ht2 : t0 = t := Except.ok.inj ht
      subst ht2
      exact hstrip

/-- Claim C9 (witness): with one rasterized page of ordinary text neither
endpoint returns the no-text error and the assembled text does not strip
to empty. -/
theorem C9_witness :
    (extract_text env1 "doc.pdf".data []).1
        ≠ .error ⟨500, "No text could be extracted from the PDF".data⟩ ∧
    (extract_to_csv env1 "doc.pdf".data []).1
        ≠ .error ⟨500, "No text could be extracted from the PDF".data⟩ ∧
    (∀ t, (ocr_pdf_from_bytes env1 []).1 = .ok t → pyStrip t ≠ []) :=
  C9_no_text_unreachable env1 "doc.pdf".data [] [5] rfl (by decide) (by decide)

/-- Claim C10: the cleaned text of every page contains no newline, so
splitting it on newlines gives back exactly the one-element list holding
the page text, and the Table-Line Heuristic therefore judges the whole
page as one candidate line. -/
theorem C10_single_line (t : List Char) :
    '\n' ∉ normalizeText t ∧
    splitNl (normalizeText t) = [normalizeText t] ∧
    (splitNl (normalizeText t)).filter is_table_line
      = (if is_table_line (normalizeText t) then [normalizeText t] else []) := by
  have h := nl_not_mem_normalize t
  refine ⟨h, splitNl_of_not_mem _ h, ?_⟩
  rw [splitNl_of_not_mem _ h]
  by_cases hb : is_table_line (normalizeText t)
  · rw [List.filter_cons_of_pos (by simp [hb]), if_pos hb]
    rfl
  · rw [List.filter_cons_of_neg (by simp [hb]), if_neg hb]
    rfl

end PdfOcr
